import Mathlib

/-!
Shallow embedding of the instance-lifecycle / namespace-management core of the
argocd-operator repository (Go), together with theorems checking the
natural-language specification against it.

The embedding translates the Go functions of
`controllers/argocd/TOBEREMOVED.go`, `controllers/argocd/server/server.go` and
the rewritten `InspectCluster` (argocd package) into pure Lean functions.
Kubernetes client calls are modelled by passing the relevant cluster state
(lists of namespaces / secrets) and error oracles explicitly; a call that the
Go code performs for its side effect is recorded in a trace where the claim is
about ordering of effects.
-/

namespace ArgoCD

/-- Value of `common.ArgoCDManagedByLabel` ("argocd.argoproj.io/managed-by"). -/
def ArgoCDManagedByLabel : String := "argocd.argoproj.io/managed-by"

/-- Value of `common.ArgoCDDefaultServer` (the in-cluster API server URL used
as the `server` field of the local cluster secret). -/
def ArgoCDDefaultServer : String := "https://kubernetes.default.svc"

/-- Drop leading whitespace characters from a character list. -/
def dropLeadingSpace : List Char → List Char
  | [] => []
  | c :: rest => if c.isWhitespace then dropLeadingSpace rest else c :: rest

/-- Go `strings.TrimSpace`: drop whitespace from both ends (structural version
of `String.trim`, so that terms evaluate inside the kernel). -/
def trimSpace (s : String) : String :=
  String.mk (dropLeadingSpace (dropLeadingSpace s.data.reverse).reverse)

/-- Split a character list around each comma; the empty list yields one empty
group, matching Go `strings.Split(s, ",")` which never returns an empty
slice. -/
def splitOnCommaChars : List Char → List (List Char)
  | [] => [[]]
  | c :: rest =>
    match splitOnCommaChars rest with
    | [] => [[c]]
    | g :: gs => if c = ',' then [] :: g :: gs else (c :: g) :: gs

/-- Go `strings.Split(s, ",")` (structural version of `String.splitOn` on a
comma, so that terms evaluate inside the kernel). -/
def splitOnComma (s : String) : List String :=
  (splitOnCommaChars s.data).map String.mk

/-- Go `strings.Join(l, ",")`. -/
def joinComma : List String → String
  | [] => ""
  | [s] => s
  | s :: t :: rest => s ++ "," ++ joinComma (t :: rest)

/-- Go `splitList` from TOBEREMOVED.go: split on "," and trim every element. -/
def splitList (s : String) : List String :=
  (splitOnComma s).map trimSpace

/-- Lexicographic order on character lists by code point (UTF-8 byte order and
code-point order agree, so this is Go string `<`). -/
def charListLt : List Char → List Char → Bool
  | _, [] => false
  | [], _ :: _ => true
  | a :: as, b :: bs =>
    if a.toNat < b.toNat then true
    else if b.toNat < a.toNat then false
    else charListLt as bs

/-- Go string comparison `s < t`. -/
def stringLt (s t : String) : Bool := charListLt s.data t.data

/-- Insert a string into a (sorted) list, keeping lexicographic order; helper
for modelling Go `sort.Strings`. -/
def insertSorted (s : String) : List String → List String
  | [] => [s]
  | t :: rest => if stringLt t s then t :: insertSorted s rest else s :: t :: rest

/-- Go `sort.Strings`: lexicographic sort, modelled as insertion sort (the
result is the sorted permutation, which is all the source relies on). -/
def sortStrings (l : List String) : List String :=
  l.foldr insertSorted []

/-- Go `allowedNamespace(current, namespaces)` from TOBEREMOVED.go: split the
comma-separated list, honour "*" only as the first element, otherwise look for
an exact element match. -/
def allowedNamespace (current : String) (namespaces : String) : Bool :=
  match splitList namespaces with
  | [] => false
  | first :: rest =>
    if first == "*" then true
    else (first :: rest).any (fun n => n == current)

/-- A cluster-type secret as the code reads it: its `server` data field (Go
yields "" for a missing key) and its optional `namespaces` data field. The
list passed to `deleteManagedNamespaceFromClusterSecret` stands for the result
of the label-selector List over secrets labelled
`argocd.argoproj.io/secret-type: cluster` in the owner namespace. -/
structure ClusterSecret where
  name : String
  server : String
  namespacesField : Option String
deriving DecidableEq, Repr

/-- The inner loop of Go `deleteManagedNamespaceFromClusterSecret`: iterate
over the comma-split stored list; entries equal (after trimming) to `sourceNS`
are skipped; every kept entry is appended to `result`, `result` is sorted, and
the secret's `namespaces` data field is overwritten with the comma-join of
`result` — all inside the loop body, so the field keeps its previous value
when no entry is kept. The accumulator carries (result, current field value),
initialised to ([], stored). -/
def clusterSecretNamespacesUpdate (sourceNS : String) (stored : String) : String :=
  let namespaceList := splitOnComma stored
  (namespaceList.foldl
    (fun (acc : List String × String) n =>
      if trimSpace n == sourceNS then acc
      else
        let result := sortStrings (acc.1 ++ [trimSpace n])
        (result, joinComma result))
    ([], stored)).2

/-- Go `deleteManagedNamespaceFromClusterSecret(ownerNS, sourceNS, client)` on
the success path: for every listed cluster-type secret, skip it unless its
`server` field equals the default server; if it has a `namespaces` field,
rewrite that field by the loop above and update the secret. -/
def deleteManagedNamespaceFromClusterSecret (sourceNS : String)
    (secrets : List ClusterSecret) : List ClusterSecret :=
  secrets.map (fun s =>
    if s.server != ArgoCDDefaultServer then s
    else
      match s.namespacesField with
      | some stored =>
          { s with namespacesField := some (clusterSecretNamespacesUpdate sourceNS stored) }
      | none => s)

/-- A namespace object as the code reads it: its name and its label map.
`labels = none` models a Go nil label map (the code distinguishes nil from
empty: `if ns.Labels == nil { continue }`). -/
structure K8sNamespace where
  name : String
  labels : Option (List (String × String))
deriving DecidableEq, Repr

/-- Lookup of a key in a label map (Go `labels[key]` with its `ok` flag). -/
def lookupLabel (labels : List (String × String)) (key : String) : Option String :=
  (labels.find? (fun p => p.1 == key)).map (fun p => p.2)

/-- Go `delete(labels, key)`. -/
def removeLabelKey (labels : List (String × String)) (key : String) : List (String × String) :=
  labels.filter (fun p => !(p.1 == key))

/-- Value of the managing-instance label of a namespace; `none` when the label
map is nil or the key is absent. -/
def managedByValue (ns : K8sNamespace) : Option String :=
  ns.labels.bind (fun l => lookupLabel l ArgoCDManagedByLabel)

/-- Go client `Get` on a namespace by name: the first cluster object with that
name, an error (`none`) when absent. -/
def getNs (cluster : List K8sNamespace) (name : String) : Option K8sNamespace :=
  cluster.find? (fun ns => ns.name == name)

/-- Go client `Update` of a namespace: replace the cluster objects carrying
its name. -/
def updateNs (cluster : List K8sNamespace) (ns : K8sNamespace) : List K8sNamespace :=
  cluster.map (fun o => if o.name == ns.name then ns else o)

/-- Go client label-selector `List` with `managed-by = value`: the namespaces
whose managing-instance label equals `value`. -/
def listManagedBy (cluster : List K8sNamespace) (value : String) : List K8sNamespace :=
  cluster.filter (fun ns => managedByValue ns == some value)

/-- Minimal reconciler state for `setManagedNamespaces`: the
`r.ManagedNamespaces` field of `ReconcileArgoCD`. -/
structure ReconcileState where
  managedNamespaces : List K8sNamespace
deriving Repr

/-- Go `(r *ReconcileArgoCD).setManagedNamespaces(cr)` from TOBEREMOVED.go:
list the namespaces whose managing-instance label equals `cr.Namespace`
(a list error is returned and the state left untouched), append a bare
namespace object named `cr.Namespace`, and store the result in
`r.ManagedNamespaces`. `listErr` models the client's list call failing. -/
def setManagedNamespaces (crNamespace : String) (listErr : Bool)
    (cluster : List K8sNamespace) (r : ReconcileState) :
    Except String Unit × ReconcileState :=
  if listErr then (Except.error "list error", r)
  else
    let items := listManagedBy cluster crNamespace
    (Except.ok (), { managedNamespaces := items ++ [{ name := crNamespace, labels := none }] })

/-- Loop body of Go `removeManagedByLabelFromNamespaces`: for each name in the
iteration list, `Get` the namespace (a get error aborts with a non-nil error);
skip it when its label map is nil or its managing-instance label differs from
`argoNamespace`; otherwise delete the label and `Update`. An update error is
only logged: the loop continues and the state is left as it was. `updateErr`
models which namespaces' update calls fail. -/
def removeManagedByLoop (argoNamespace : String) (updateErr : String → Bool) :
    List String → List K8sNamespace → Except String (List K8sNamespace)
  | [], cluster => Except.ok cluster
  | n :: rest, cluster =>
    match getNs cluster n with
    | none => Except.error ("failed to get namespace " ++ n)
    | some ns =>
      match ns.labels with
      | none => removeManagedByLoop argoNamespace updateErr rest cluster
      | some lbls =>
        if lookupLabel lbls ArgoCDManagedByLabel == some argoNamespace then
          if updateErr ns.name then
            removeManagedByLoop argoNamespace updateErr rest cluster
          else
            removeManagedByLoop argoNamespace updateErr rest
              (updateNs cluster { ns with labels := some (removeLabelKey lbls ArgoCDManagedByLabel) })
        else
          removeManagedByLoop argoNamespace updateErr rest cluster

/-- Go `(r *ReconcileArgoCD).removeManagedByLabelFromNamespaces(namespace)`
from TOBEREMOVED.go: list the namespaces labelled `managed-by = namespace`
(a list error is returned), append the instance namespace itself, and run the
removal loop above. The result is the final cluster state, or the error
returned to the lifecycle state machine. -/
def removeManagedByLabelFromNamespaces (argoNamespace : String) (listErr : Bool)
    (updateErr : String → Bool) (cluster : List K8sNamespace) :
    Except String (List K8sNamespace) :=
  if listErr then Except.error "list error"
  else
    let items := (listManagedBy cluster argoNamespace).map K8sNamespace.name ++ [argoNamespace]
    removeManagedByLoop argoNamespace updateErr items cluster

/-- Whether a Go-style result is a nil error (`Except.ok`). -/
def exceptOk {ε α : Type} : Except ε α → Bool
  | Except.ok _ => true
  | Except.error _ => false

/-- A Kubernetes API action performed by `deleteRBACsForNamespace`, in the
order the Go code issues it. -/
inductive RbacOp where
  | listRoles
  | deleteRole (name : String)
  | listRoleBindings
  | deleteRoleBinding (name : String)
deriving DecidableEq, Repr

/-- Whether an op is a Role deletion. -/
def isDeleteRole : RbacOp → Bool
  | RbacOp.deleteRole _ => true
  | _ => false

/-- Whether an op is a RoleBinding deletion. -/
def isDeleteRoleBinding : RbacOp → Bool
  | RbacOp.deleteRoleBinding _ => true
  | _ => false

/-- Go `deleteRBACsForNamespace(ownerNS, sourceNS, client)` from
TOBEREMOVED.go as a trace of API actions: list the part-of-labelled Roles in
the namespace (a list error returns after only that action), delete each
listed Role (individual delete errors are only logged), then list the
part-of-labelled RoleBindings (a list error returns), then delete each listed
RoleBinding. `rolesRes` / `roleBindingsRes` model the two list calls'
results. -/
def deleteRBACsForNamespace (rolesRes roleBindingsRes : Except String (List String)) :
    List RbacOp × Option String :=
  match rolesRes with
  | Except.error e => ([RbacOp.listRoles], some e)
  | Except.ok roles =>
    let afterRoles := RbacOp.listRoles :: roles.map RbacOp.deleteRole
    match roleBindingsRes with
    | Except.error e => (afterRoles ++ [RbacOp.listRoleBindings], some e)
    | Except.ok roleBindings =>
      (afterRoles ++ RbacOp.listRoleBindings :: roleBindings.map RbacOp.deleteRoleBinding, none)

/-- Property that every RoleBinding deletion precedes every Role deletion in a
trace: at each suffix, a Role deletion at the head rules out any later
RoleBinding deletion. This is the order the spec sentence of C3 asserts. -/
def bindingsDeletedBeforeRoles : List RbacOp → Bool
  | [] => true
  | op :: rest =>
    (!(isDeleteRole op) || rest.all (fun o => !(isDeleteRoleBinding o))) &&
      bindingsDeletedBeforeRoles rest

/-- Property that every Role deletion precedes every RoleBinding deletion in a
trace (the mirror of `bindingsDeletedBeforeRoles`). -/
def rolesDeletedBeforeBindings : List RbacOp → Bool
  | [] => true
  | op :: rest =>
    (!(isDeleteRoleBinding op) || rest.all (fun o => !(isDeleteRole o))) &&
      rolesDeletedBeforeBindings rest

/-- A cleanup action taken by the namespace watch predicate. -/
inductive CleanupAction where
  | deleteRBACs (ownerNS sourceNS : String)
  | removeFromClusterSecret (ownerNS sourceNS : String)
deriving DecidableEq, Repr

/-- Whether a cleanup action is the cluster-secret removal. -/
def isSecretCleanup : CleanupAction → Bool
  | CleanupAction.removeFromClusterSecret _ _ => true
  | _ => false

/-- Go `namespaceFilterPredicate().DeleteFunc` from TOBEREMOVED.go as a trace:
when the deleted namespace carried a non-empty managing-instance label, build
a client (`clientErr` models `initK8sClient` failing, which returns `false`
with no action taken) and delete the namespace from the managing instance's
cluster secret; errors of that call are only logged. The event is never
passed on (the returned `Bool` is always `false`), and no RBAC deletion is
performed here. `labels = none` models a nil label map. -/
def deleteFuncActions (labels : Option (List (String × String))) (name : String)
    (clientErr : Bool) : List CleanupAction × Bool :=
  match labels.bind (fun l => lookupLabel l ArgoCDManagedByLabel) with
  | some ns =>
    if ns == "" then ([], false)
    else if clientErr then ([], false)
    else ([CleanupAction.removeFromClusterSecret ns name], false)
  | none => ([], false)

/-- Go `namespaceFilterPredicate().UpdateFunc` from TOBEREMOVED.go as a trace:
when the new object carries the managing-instance label and the old object
carried a different value, delete the RBACs for the old value and remove the
namespace from the old instance's cluster secret, then pass the event on;
when the new object lost the label and the old value was non-empty, perform
the same two cleanups and swallow the event. -/
def updateFuncActions (oldLabels newLabels : Option (List (String × String)))
    (name : String) (clientErr : Bool) : List CleanupAction × Bool :=
  match newLabels.bind (fun l => lookupLabel l ArgoCDManagedByLabel) with
  | some valNew =>
    match oldLabels.bind (fun l => lookupLabel l ArgoCDManagedByLabel) with
    | some valOld =>
      if valOld == valNew then ([], true)
      else if clientErr then ([], false)
      else ([CleanupAction.deleteRBACs valOld name,
             CleanupAction.removeFromClusterSecret valOld name], true)
    | none => ([], true)
  | none =>
    match oldLabels.bind (fun l => lookupLabel l ArgoCDManagedByLabel) with
    | some ns =>
      if ns == "" then ([], false)
      else if clientErr then ([], false)
      else ([CleanupAction.deleteRBACs ns name,
             CleanupAction.removeFromClusterSecret ns name], false)
    | none => ([], false)

/-- One per-resource-kind reconciliation step of
`(r *ReconcileArgoCD).reconcileResources` from TOBEREMOVED.go. -/
inductive RStep where
  | status
  | roles
  | roleBindings
  | serviceAccounts
  | certAuthority
  | secrets
  | configMaps
  | services
  | deployments
  | statefulSets
  | autoscalers
  | ingresses
  | routes
  | prometheus
  | metricsServiceMonitor
  | repoServerServiceMonitor
  | serverMetricsServiceMonitor
  | applicationSetController
  | repoServerTLSSecret
  | sso
deriving DecidableEq, Repr

/-- The sequence of steps `reconcileResources` attempts on the success path,
in source order; `routeAvail` / `promAvail` model the capability gates and
`hasAppSet` / `hasSSO` the corresponding non-nil spec sections. -/
def reconcileResourcesOrder (routeAvail promAvail hasAppSet hasSSO : Bool) : List RStep :=
  [RStep.status, RStep.roles, RStep.roleBindings, RStep.serviceAccounts,
   RStep.certAuthority, RStep.secrets, RStep.configMaps, RStep.services,
   RStep.deployments, RStep.statefulSets, RStep.autoscalers, RStep.ingresses] ++
  (if routeAvail then [RStep.routes] else []) ++
  (if promAvail then
      [RStep.prometheus, RStep.metricsServiceMonitor, RStep.repoServerServiceMonitor,
       RStep.serverMetricsServiceMonitor]
    else []) ++
  (if hasAppSet then [RStep.applicationSetController] else []) ++
  [RStep.repoServerTLSSecret] ++
  (if hasSSO then [RStep.sso] else [])

/-- Execution of a step sequence where each step may fail (the Go `if err :=
...; err != nil { return err }` chain): the executed steps and whether the
pass completed without error. The first failing step is executed, everything
after it is not. -/
def runSteps (err : RStep → Bool) : List RStep → List RStep × Bool
  | [] => ([], true)
  | s :: rest =>
    if err s then ([s], false)
    else
      let r := runSteps err rest
      (s :: r.1, r.2)

/-- Relative position of step `a` before step `b` in a step list. -/
def stepBefore (a b : RStep) (l : List RStep) : Bool :=
  decide (l.indexOf a < l.indexOf b)

/-- One resource step of `ServerReconciler` (controllers/argocd/server). -/
inductive SStep where
  | serviceAccount
  | clusterRole
  | clusterRoleBinding
  | roles
  | roleBindings
  | deployment
  | service
  | horizontalPodAutoscaler
  | ingresses
  | route
deriving DecidableEq, Repr

/-- The sequence of steps `ServerReconciler.Reconcile` performs in source
order on the success path (each step's error aborts the rest); the Route step
runs only when the Route API is available. -/
def serverReconcileOrder (routeAvail : Bool) : List SStep :=
  [SStep.serviceAccount, SStep.clusterRole, SStep.clusterRoleBinding,
   SStep.roles, SStep.roleBindings, SStep.deployment, SStep.service,
   SStep.horizontalPodAutoscaler, SStep.ingresses] ++
  (if routeAvail then [SStep.route] else [])

/-- The sequence of steps `ServerReconciler.DeleteResources` performs in
source order on the success path; the Route step runs only when the Route API
is available. -/
def serverDeleteOrder (routeAvail : Bool) : List SStep :=
  (if routeAvail then [SStep.route] else []) ++
  [SStep.ingresses, SStep.horizontalPodAutoscaler, SStep.service,
   SStep.deployment, SStep.roleBindings, SStep.roles,
   SStep.clusterRoleBinding, SStep.clusterRole, SStep.serviceAccount]

/-- The package-level capability flags of the argocd controller package
(`versionAPIFound`, `prometheusAPIFound`, `routeAPIFound`,
`templateAPIFound`). -/
structure Caps where
  versionAPIFound : Bool
  prometheusAPIFound : Bool
  routeAPIFound : Bool
  templateAPIFound : Bool
deriving DecidableEq, Repr

/-- Go `verifyVersionAPI` from TOBEREMOVED.go: call `argoutil.VerifyAPI`
(whose outcome is the `probe` argument); on error return it with the flags
untouched, otherwise record the probe result in `versionAPIFound`. -/
def verifyVersionAPI (probe : Except String Bool) (c : Caps) : Except String Unit × Caps :=
  match probe with
  | Except.error e => (Except.error e, c)
  | Except.ok found => (Except.ok (), { c with versionAPIFound := found })

/-- Go `verifyRouteAPI` from TOBEREMOVED.go: on probe error return it with
the flags untouched, otherwise record the result in `routeAPIFound`. -/
def verifyRouteAPI (probe : Except String Bool) (c : Caps) : Except String Unit × Caps :=
  match probe with
  | Except.error e => (Except.error e, c)
  | Except.ok found => (Except.ok (), { c with routeAPIFound := found })

/-- Go `verifyPrometheusAPI` from TOBEREMOVED.go: on probe error return it
with the flags untouched, otherwise record the result in
`prometheusAPIFound`. -/
def verifyPrometheusAPI (probe : Except String Bool) (c : Caps) : Except String Unit × Caps :=
  match probe with
  | Except.error e => (Except.error e, c)
  | Except.ok found => (Except.ok (), { c with prometheusAPIFound := found })

/-- Go `verifyTemplateAPI` from TOBEREMOVED.go: on probe error return it with
the flags untouched, otherwise record the result in `templateAPIFound`. -/
def verifyTemplateAPI (probe : Except String Bool) (c : Caps) : Except String Unit × Caps :=
  match probe with
  | Except.error e => (Except.error e, c)
  | Except.ok found => (Except.ok (), { c with templateAPIFound := found })

/-- Go `InspectCluster` from TOBEREMOVED.go (the version cited by the spec,
with the Version probe): run the four verify calls in the order Prometheus,
Route, Template, Version, returning at the FIRST one that errors, so later
probes are not attempted. -/
def InspectCluster (prom route templ ver : Except String Bool) (c : Caps) :
    Except String Unit × Caps :=
  match verifyPrometheusAPI prom c with
  | (Except.error e, c1) => (Except.error e, c1)
  | (Except.ok _, c1) =>
    match verifyRouteAPI route c1 with
    | (Except.error e, c2) => (Except.error e, c2)
    | (Except.ok _, c2) =>
      match verifyTemplateAPI templ c2 with
      | (Except.error e, c3) => (Except.error e, c3)
      | (Except.ok _, c3) =>
        match verifyVersionAPI ver c3 with
        | (Except.error e, c4) => (Except.error e, c4)
        | (Except.ok _, c4) => (Except.ok (), c4)

/-- Rewritten Go `InspectCluster` from the argocd package (src/unnamed
part_011): run the four verify calls in the same order, but record each
failure in `inspectError` and CONTINUE, returning the last error seen; each
sub-package verifier follows the same probe-then-set-flag pattern as the
`verify*API` functions above. -/
def InspectClusterNew (prom route templ ver : Except String Bool) (c : Caps) :
    Option String × Caps :=
  let r1 := verifyPrometheusAPI prom c
  let e1 : Option String := match r1.1 with | Except.error e => some e | Except.ok _ => none
  let r2 := verifyRouteAPI route r1.2
  let e2 : Option String := match r2.1 with | Except.error e => some e | Except.ok _ => e1
  let r3 := verifyTemplateAPI templ r2.2
  let e3 : Option String := match r3.1 with | Except.error e => some e | Except.ok _ => e2
  let r4 := verifyVersionAPI ver r3.2
  let e4 : Option String := match r4.1 with | Except.error e => some e | Except.ok _ => e3
  (e4, r4.2)

/-- Expected flag state after four independent probes: each flag is updated
by its own probe when that probe succeeds and kept at its previous value when
it fails. Stated from the spec's words; used to express independence of the
probes in the rewritten `InspectCluster`. -/
def capsAfterIndependentProbes (prom route templ ver : Except String Bool) (c : Caps) : Caps :=
  { prometheusAPIFound := match prom with | Except.ok b => b | Except.error _ => c.prometheusAPIFound
    routeAPIFound := match route with | Except.ok b => b | Except.error _ => c.routeAPIFound
    templateAPIFound := match templ with | Except.ok b => b | Except.error _ => c.templateAPIFound
    versionAPIFound := match ver with | Except.ok b => b | Except.error _ => c.versionAPIFound }

/-! Theorems. -/

/-- C10: `allowedNamespace(current, namespaces)` returns true exactly when the
first element of the trimmed comma-split list is "*" or some element equals
`current`; a "*" at a later position only matches the literal namespace name
"*", so the wildcard is honored only in first position. -/
theorem allowedNamespace_wildcard_first_or_member (current namespaces : String) :
    allowedNamespace current namespaces = true ↔
      ((splitList namespaces).head? = some "*" ∨ current ∈ splitList namespaces) := by
  unfold allowedNamespace
  cases h : splitList namespaces with
  | nil => simp
  | cons first rest =>
    by_cases hstar : first = "*"
    · subst hstar; simp
    · have hbeq : (first == "*") = false := by simpa using hstar
      simp only [hbeq, Bool.false_eq_true, if_false, List.head?_cons, Option.some.injEq,
        List.any_eq_true, beq_iff_eq]
      constructor
      · rintro ⟨x, hx, rfl⟩
        exact Or.inr hx
      · rintro (h1 | h2)
        · exact absurd h1 hstar
        · exact ⟨current, h2, rfl⟩

/-- C1: evaluation of `deleteManagedNamespaceFromClusterSecret` at a cluster
secret whose stored list consists of the single entry "ns2", removing
source namespace "ns2": because the Go loop writes `secret.Data["namespaces"]`
only inside the kept-entry branch, no write happens when the removed namespace
was the only entry, and the secret still lists "ns2" after the successful
call — contradicting the intent stated in the code's own comments (remove the
namespace from the list) and in the spec. -/
theorem clusterSecret_sole_entry_not_removed :
    deleteManagedNamespaceFromClusterSecret "ns2"
      [{ name := "cluster-secret", server := ArgoCDDefaultServer, namespacesField := some "ns2" }] =
      [{ name := "cluster-secret", server := ArgoCDDefaultServer, namespacesField := some "ns2" }] := by
  decide

/-- C3 counterexample: with one listed Role and one listed RoleBinding,
`deleteRBACsForNamespace`'s action trace does not delete RoleBindings before
Roles — the Go code lists and deletes the Roles first. -/
theorem deleteRBACs_not_bindings_first :
    bindingsDeletedBeforeRoles
      (deleteRBACsForNamespace (Except.ok ["argocd-role"]) (Except.ok ["argocd-binding"])).1 = false := by
  decide

/-- Helper: a trace element that is not a RoleBinding deletion is neutral for
`rolesDeletedBeforeBindings`. -/
theorem rolesDeletedBeforeBindings_cons_of_not_binding (op : RbacOp) (t : List RbacOp)
    (h : isDeleteRoleBinding op = false) :
    rolesDeletedBeforeBindings (op :: t) = rolesDeletedBeforeBindings t := by
  simp [rolesDeletedBeforeBindings, h]

/-- Helper: a trace consisting only of RoleBinding deletions satisfies
`rolesDeletedBeforeBindings`. -/
theorem rolesDeletedBeforeBindings_bindings_only (rbs : List String) :
    rolesDeletedBeforeBindings (rbs.map RbacOp.deleteRoleBinding) = true := by
  induction rbs with
  | nil => rfl
  | cons b rest ih =>
    simp [rolesDeletedBeforeBindings, ih, List.all_map, isDeleteRole, isDeleteRoleBinding]

/-- Helper: prepending Role deletions preserves
`rolesDeletedBeforeBindings`. -/
theorem rolesDeletedBeforeBindings_roles_prefix (roles : List String) (t : List RbacOp)
    (h : rolesDeletedBeforeBindings t = true) :
    rolesDeletedBeforeBindings (roles.map RbacOp.deleteRole ++ t) = true := by
  induction roles with
  | nil => simpa using h
  | cons r rest ih =>
    simpa [rolesDeletedBeforeBindings, isDeleteRoleBinding] using ih

/-- C3 amended: in every trace of `deleteRBACsForNamespace` (including the
early-error ones), every Role deletion precedes every RoleBinding deletion —
the deletion order is Role first, then RoleBinding, i.e. the SAME order as
creation, not its mirror. -/
theorem deleteRBACs_roles_first (rolesRes roleBindingsRes : Except String (List String)) :
    rolesDeletedBeforeBindings (deleteRBACsForNamespace rolesRes roleBindingsRes).1 = true := by
  cases rolesRes with
  | error e => rfl
  | ok roles =>
    cases roleBindingsRes with
    | error e =>
      simp only [deleteRBACsForNamespace]
      rw [List.cons_append]
      rw [rolesDeletedBeforeBindings_cons_of_not_binding RbacOp.listRoles
        (roles.map RbacOp.deleteRole ++ [RbacOp.listRoleBindings]) rfl]
      exact rolesDeletedBeforeBindings_roles_prefix roles _ (by rfl)
    | ok rbs =>
      simp only [deleteRBACsForNamespace]
      rw [List.cons_append]
      rw [rolesDeletedBeforeBindings_cons_of_not_binding RbacOp.listRoles
        (roles.map RbacOp.deleteRole ++
          (RbacOp.listRoleBindings :: rbs.map RbacOp.deleteRoleBinding)) rfl]
      refine rolesDeletedBeforeBindings_roles_prefix roles _ ?_
      rw [rolesDeletedBeforeBindings_cons_of_not_binding RbacOp.listRoleBindings
        (rbs.map RbacOp.deleteRoleBinding) rfl]
      exact rolesDeletedBeforeBindings_bindings_only rbs

/-- C4 counterexample: a namespace delete event for "ns1" carrying the label
`managed-by: argo` triggers only the cluster-secret removal — the RBAC
deletion the claim requires is absent from the trace. -/
theorem deleteFunc_no_rbac_cleanup_example :
    (deleteFuncActions (some [(ArgoCDManagedByLabel, "argo")]) "ns1" false).1 =
      [CleanupAction.removeFromClusterSecret "argo" "ns1"] ∧
    CleanupAction.deleteRBACs "argo" "ns1" ∉
      (deleteFuncActions (some [(ArgoCDManagedByLabel, "argo")]) "ns1" false).1 := by
  decide

/-- C4 amended: on a namespace delete event with a non-empty managing-instance
label, the watch predicate removes the namespace from the managing instance's
cluster secret, and that is the only kind of action it ever performs — it
never deletes the Role/RoleBinding pairs (only the update event path does
that). -/
theorem deleteFunc_secret_cleanup_only (labels : List (String × String)) (name v : String)
    (h1 : lookupLabel labels ArgoCDManagedByLabel = some v) (h2 : v ≠ "") :
    (deleteFuncActions (some labels) name false).1 =
      [CleanupAction.removeFromClusterSecret v name] ∧
    ∀ (oldLabels : Option (List (String × String))) (nm : String) (ce : Bool),
      ((deleteFuncActions oldLabels nm ce).1.all (fun a => isSecretCleanup a)) = true := by
  constructor
  · simp [deleteFuncActions, h1, h2]
  · intro oldLabels nm ce
    unfold deleteFuncActions
    cases hm : oldLabels.bind (fun l => lookupLabel l ArgoCDManagedByLabel) with
    | none => rfl
    | some ns =>
      by_cases hns : ns = ""
      · simp [hns]
      · cases ce <;> simp [hns, isSecretCleanup]

/-- C4 amended, witness at a concrete delete event. -/
theorem deleteFunc_secret_cleanup_only_witness :
    (deleteFuncActions (some [(ArgoCDManagedByLabel, "argo")]) "ns1" false).1 =
      [CleanupAction.removeFromClusterSecret "argo" "ns1"] ∧
    ∀ (oldLabels : Option (List (String × String))) (nm : String) (ce : Bool),
      ((deleteFuncActions oldLabels nm ce).1.all (fun a => isSecretCleanup a)) = true :=
  deleteFunc_secret_cleanup_only [(ArgoCDManagedByLabel, "argo")] "ns1" "argo" (by decide)
    (by decide)

/-- C6: `ServerReconciler.DeleteResources` handles the resource kinds in
exactly the reverse of the order `ServerReconciler.Reconcile` reconciles
them, both with and without the Route capability; with the Route API present
the deletion sequence is route, ingresses, HPA, service, deployment, role
bindings, roles, cluster role binding, cluster role, service account. -/
theorem serverDelete_reverse_of_reconcile :
    (∀ routeAvail : Bool,
        serverDeleteOrder routeAvail = (serverReconcileOrder routeAvail).reverse) ∧
    serverDeleteOrder true =
      [SStep.route, SStep.ingresses, SStep.horizontalPodAutoscaler, SStep.service,
       SStep.deployment, SStep.roleBindings, SStep.roles, SStep.clusterRoleBinding,
       SStep.clusterRole, SStep.serviceAccount] := by
  exact ⟨fun b => by cases b <;> decide, by decide⟩

/-- C9: each `verify*API` function leaves every capability flag unchanged when
the underlying API probe errors (it returns before the assignment), and writes
exactly its own flag with the probe result when the probe succeeds. -/
theorem verifyAPI_flags_frame (e : String) (b : Bool) (c : Caps) :
    verifyRouteAPI (Except.error e) c = (Except.error e, c) ∧
    verifyPrometheusAPI (Except.error e) c = (Except.error e, c) ∧
    verifyTemplateAPI (Except.error e) c = (Except.error e, c) ∧
    verifyVersionAPI (Except.error e) c = (Except.error e, c) ∧
    verifyRouteAPI (Except.ok b) c = (Except.ok (), { c with routeAPIFound := b }) ∧
    verifyPrometheusAPI (Except.ok b) c = (Except.ok (), { c with prometheusAPIFound := b }) ∧
    verifyTemplateAPI (Except.ok b) c = (Except.ok (), { c with templateAPIFound := b }) ∧
    verifyVersionAPI (Except.ok b) c = (Except.ok (), { c with versionAPIFound := b }) :=
  ⟨rfl, rfl, rfl, rfl, rfl, rfl, rfl, rfl⟩

/-- C8 counterexample: in the cited `InspectCluster` (TOBEREMOVED.go), a
failing Prometheus probe makes the call return immediately: the Route,
Template and Version probes — all of which would succeed here — are never
attempted and no flag is updated, so a failure of one probe does prevent the
remaining probes. -/
theorem inspectCluster_stops_at_first_failure :
    InspectCluster (Except.error "prometheus probe failed") (Except.ok true) (Except.ok true)
        (Except.ok true) ⟨false, false, false, false⟩ =
      (Except.error "prometheus probe failed", ⟨false, false, false, false⟩) := rfl

/-- C8 amended: the rewritten `InspectCluster` (argocd package) does attempt
every probe independently — after the call each flag equals its own probe's
result when that probe succeeded and its previous value when it failed,
regardless of the other probes' outcomes; the legacy TOBEREMOVED.go
`InspectCluster` instead returns at the first probe failure. -/
theorem inspectClusterNew_probes_independent (prom route templ ver : Except String Bool)
    (c : Caps) :
    (InspectClusterNew prom route templ ver c).2 =
      capsAfterIndependentProbes prom route templ ver c := by
  cases prom <;> cases route <;> cases templ <;> cases ver <;> rfl

/-- C5 counterexample: in `reconcileResources` (all capability gates and
optional spec sections enabled) the service-accounts step does NOT precede the
roles step, and the workloads (deployments) step does NOT precede the services
step — so the pass is not in the claimed order service accounts →
roles/bindings → workloads → services. -/
theorem reconcileResources_order_not_as_claimed :
    ¬ (stepBefore RStep.serviceAccounts RStep.roles
          (reconcileResourcesOrder true true true true) = true ∧
       stepBefore RStep.deployments RStep.services
          (reconcileResourcesOrder true true true true) = true) := by
  decide

/-- Helper: executing a step chain where each step's error aborts the pass
runs exactly the failure-free prefix plus the first failing step, and
succeeds exactly when no step fails. -/
theorem runSteps_eq (err : RStep → Bool) (l : List RStep) :
    runSteps err l =
      (l.takeWhile (fun s => !err s) ++ (l.dropWhile (fun s => !err s)).take 1,
       l.all (fun s => !err s)) := by
  induction l with
  | nil => rfl
  | cons s rest ih =>
    by_cases h : err s = true
    · simp [runSteps, h, List.takeWhile_cons, List.dropWhile_cons]
    · simp only [Bool.not_eq_true] at h
      simp [runSteps, h, List.takeWhile_cons, List.dropWhile_cons, ih]

/-- C5 amended: the per-resource-kind steps of `reconcileResources` run in the
fixed source order status → roles → role bindings → service accounts → CA →
secrets → config maps → services → workloads (deployments, statefulsets) →
autoscalers → ingresses → capability-gated routes and Prometheus resources →
ApplicationSet → repo-server TLS → SSO (so roles/bindings precede service
accounts and services precede workloads); the first failing step aborts the
remainder of the pass and the pass errors exactly when some attempted step
failed. -/
theorem reconcileResources_actual_order (ra pa ha hs : Bool) (err : RStep → Bool) :
    reconcileResourcesOrder true true true true =
      [RStep.status, RStep.roles, RStep.roleBindings, RStep.serviceAccounts,
       RStep.certAuthority, RStep.secrets, RStep.configMaps, RStep.services,
       RStep.deployments, RStep.statefulSets, RStep.autoscalers, RStep.ingresses,
       RStep.routes, RStep.prometheus, RStep.metricsServiceMonitor,
       RStep.repoServerServiceMonitor, RStep.serverMetricsServiceMonitor,
       RStep.applicationSetController, RStep.repoServerTLSSecret, RStep.sso] ∧
    List.Sublist
      [RStep.roles, RStep.roleBindings, RStep.serviceAccounts, RStep.services,
       RStep.deployments, RStep.ingresses]
      (reconcileResourcesOrder ra pa ha hs) ∧
    runSteps err (reconcileResourcesOrder ra pa ha hs) =
      ((reconcileResourcesOrder ra pa ha hs).takeWhile (fun s => !err s) ++
        ((reconcileResourcesOrder ra pa ha hs).dropWhile (fun s => !err s)).take 1,
       (reconcileResourcesOrder ra pa ha hs).all (fun s => !err s)) := by
  refine ⟨by decide, ?_, runSteps_eq err _⟩
  cases ra <;> cases pa <;> cases ha <;> cases hs <;> decide

/-- C7: `setManagedNamespaces(cr)` on success stores in `r.ManagedNamespaces`
exactly the namespaces whose managing-instance label equals `cr.Namespace`
plus the instance's own namespace (always a member, label or not); a list
error is returned to the caller with the state unchanged. -/
theorem setManagedNamespaces_spec (crNS x : String) (cluster : List K8sNamespace)
    (r : ReconcileState) :
    setManagedNamespaces crNS true cluster r = (Except.error "list error", r) ∧
    (x ∈ ((setManagedNamespaces crNS false cluster r).2.managedNamespaces.map K8sNamespace.name) ↔
      (x = crNS ∨ ∃ ns ∈ cluster, managedByValue ns = some crNS ∧ ns.name = x)) := by
  refine ⟨rfl, ?_⟩
  simp only [setManagedNamespaces, if_neg Bool.false_ne_true, listManagedBy,
    List.map_append, List.mem_append, List.mem_map, List.mem_filter, beq_iff_eq,
    List.mem_singleton]
  constructor
  · rintro (⟨ns, ⟨hns, hlbl⟩, rfl⟩ | h)
    · exact Or.inr ⟨ns, hns, hlbl, rfl⟩
    · simp at h
      exact Or.inl h.symm
  · rintro (h | ⟨ns, hns, hlbl, rfl⟩)
    · exact Or.inr (by simp [h])
    · exact Or.inl ⟨ns, ⟨hns, hlbl⟩, rfl⟩

/-- Helper: updating a namespace object in place preserves the multiset of
namespace names in the cluster. -/
theorem updateNs_names (cluster : List K8sNamespace) (ns : K8sNamespace) :
    (updateNs cluster ns).map K8sNamespace.name = cluster.map K8sNamespace.name := by
  simp only [updateNs, List.map_map]
  refine List.map_congr_left ?_
  intro a _
  simp only [Function.comp_apply]
  by_cases h2 : a.name = ns.name
  · simp [h2]
  · simp [h2]

/-- Helper: `Get` of a namespace succeeds exactly when some cluster object
carries the name. -/
theorem getNs_isSome_iff (cluster : List K8sNamespace) (m : String) :
    (getNs cluster m).isSome = true ↔ m ∈ cluster.map K8sNamespace.name := by
  simp only [getNs, List.find?_isSome, List.mem_map, beq_iff_eq]

/-- Helper: the label-removal loop never returns an error when every iterated
name exists in the cluster, whatever the update-error oracle says — update
failures are logged and skipped, never propagated. -/
theorem removeManagedByLoop_ok (argoNS : String) (updateErr : String → Bool) :
    ∀ (items : List String) (cluster : List K8sNamespace),
      (∀ n ∈ items, n ∈ cluster.map K8sNamespace.name) →
      exceptOk (removeManagedByLoop argoNS updateErr items cluster) = true := by
  intro items
  induction items with
  | nil => intro cluster _; rfl
  | cons n rest ih =>
    intro cluster h
    have hn : n ∈ cluster.map K8sNamespace.name := h n (List.mem_cons_self n rest)
    have hget : (getNs cluster n).isSome = true := (getNs_isSome_iff cluster n).2 hn
    have hrest : ∀ m ∈ rest, m ∈ cluster.map K8sNamespace.name :=
      fun m hm => h m (List.mem_cons_of_mem n hm)
    rcases hg : getNs cluster n with _ | ns
    · rw [hg] at hget; simp at hget
    · simp only [removeManagedByLoop, hg]
      cases hl : ns.labels with
      | none => exact ih cluster hrest
      | some lbls =>
        by_cases hmb : lookupLabel lbls ArgoCDManagedByLabel = some argoNS
        · simp only [hmb, beq_self_eq_true, if_true]
          by_cases hue : updateErr ns.name = true
          · simp only [hue, if_true]
            exact ih cluster hrest
          · simp only [Bool.not_eq_true] at hue
            simp only [hue, Bool.false_eq_true, if_false]
            refine ih _ (fun m hm => ?_)
            rw [updateNs_names]
            exact hrest m hm
        · have : (lookupLabel lbls ArgoCDManagedByLabel == some argoNS) = false := by
            simpa using hmb
          simp only [this, Bool.false_eq_true, if_false]
          exact ih cluster hrest

/-- C2 counterexample: namespace "ns1" is managed by instance namespace
"argo"; the update call removing its managing-instance label fails (the
oracle errors exactly on "ns1"), yet `removeManagedByLabelFromNamespaces`
returns nil — the cluster is unchanged and no error reaches the lifecycle
state machine, so this cleanup step cannot keep the finalizer in place. -/
theorem removeManagedByLabel_swallows_update_error :
    removeManagedByLabelFromNamespaces "argo" false (fun n => n == "ns1")
      [{ name := "ns1", labels := some [(ArgoCDManagedByLabel, "argo")] },
       { name := "argo", labels := some [] }] =
    Except.ok
      [{ name := "ns1", labels := some [(ArgoCDManagedByLabel, "argo")] },
       { name := "argo", labels := some [] }] := by
  rfl

/-- C2 amended: `removeManagedByLabelFromNamespaces` returns a non-nil error
only for a failing List call or a failing Get of an iterated namespace; a
failure of the Update call that removes the managing-instance label is logged
and skipped, and the function returns nil — so on that pass the finalizer
removal is NOT blocked by label-removal failures. Whenever the list call
succeeds and the instance's namespace exists, the call returns nil for every
update-error oracle. -/
theorem removeManagedByLabel_update_errors_ignored (argoNS : String)
    (updateErr : String → Bool) (cluster : List K8sNamespace)
    (h : (getNs cluster argoNS).isSome = true) :
    exceptOk (removeManagedByLabelFromNamespaces argoNS false updateErr cluster) = true := by
  unfold removeManagedByLabelFromNamespaces
  rw [if_neg Bool.false_ne_true]
  apply removeManagedByLoop_ok
  intro n hn
  rcases List.mem_append.1 hn with h1 | h2
  · rcases List.mem_map.1 h1 with ⟨ns, hns, rfl⟩
    exact List.mem_map_of_mem K8sNamespace.name (List.mem_filter.1 hns).1
  · rcases List.mem_singleton.1 h2 with rfl
    exact (getNs_isSome_iff cluster n).1 h

/-- C2 amended, witness: concrete cluster where every update call fails and
the function still returns nil. -/
theorem removeManagedByLabel_update_errors_ignored_witness :
    (getNs [{ name := "ns1", labels := some [(ArgoCDManagedByLabel, "argo")] },
            { name := "argo", labels := some [] }] "argo").isSome = true ∧
    exceptOk (removeManagedByLabelFromNamespaces "argo" false (fun _ => true)
      [{ name := "ns1", labels := some [(ArgoCDManagedByLabel, "argo")] },
       { name := "argo", labels := some [] }]) = true :=
  ⟨by decide,
   removeManagedByLabel_update_errors_ignored "argo" (fun _ => true)
     [{ name := "ns1", labels := some [(ArgoCDManagedByLabel, "argo")] },
      { name := "argo", labels := some [] }] (by decide)⟩

end ArgoCD
